import Mathlib

/-!
Verification development for a streaming chat client (React/TypeScript).

The definitions below are shallow embeddings of the program's core:

* thread-title derivation (`sendMessage` in `src/App.tsx`),
* the tool dispatcher (`executeTool` in `src/services/tools.ts`),
* the conversation store (`src/services/localSqlite.ts`),
* the transport stream reader (`streamGroqChat` in `src/services/groq.ts`),
* the delta accumulator and tool-loop controller (`processChatInteraction`
  in `src/App.tsx`),
* the presentation projection (`groupedMessages` in `src/App.tsx`).

JavaScript strings are modelled as Lean `String`s; the handful of string
operations the code uses (`trim`, `split(' ')`, `substring`, `join`) are
defined structurally over `String.data` so that all definitions evaluate
by kernel reduction.  JavaScript string falsiness (`if (s)`) corresponds
to `s ≠ ""`, and `undefined`/`null` fields are modelled with `Option`
(or the three-valued `JSField` where the distinction between an absent
field and an explicit `null` matters).  Wall-clock readings (`Date.now()`)
are modelled as abstract `Nat` timestamps supplied with the events.
-/

/-- JavaScript `Array.prototype.join` over character lists: empty list gives
the empty string, otherwise the pieces are interleaved with the separator. -/
def jsJoin (sep : List Char) : List (List Char) → List Char
  | [] => []
  | [x] => x
  | x :: y :: xs => x ++ sep ++ jsJoin sep (y :: xs)

/-- JavaScript `String.prototype.split` with a single-character separator:
`"".split(c) = [""]`, and adjacent separators produce empty fragments. -/
def jsSplitOn (c : Char) : List Char → List (List Char)
  | [] => [[]]
  | a :: rest =>
      let r := jsSplitOn c rest
      if a = c then [] :: r
      else
        match r with
        | [] => [[a]]
        | x :: xs => (a :: x) :: xs

/-- JavaScript `String.prototype.trim`: drop whitespace from both ends. -/
def jsTrim (l : List Char) : List Char :=
  ((l.dropWhile Char.isWhitespace).reverse.dropWhile Char.isWhitespace).reverse

/-!
## Thread title derivation

`src/App.tsx`, `sendMessage` (auto-create branch):

```
const firstWords = input.trim().split(' ').slice(0, 5).join(' ');
const title = firstWords.length > 30 ? firstWords.substring(0, 30) + '...' : firstWords;
```
-/

/-- The five-word prefix `input.trim().split(' ').slice(0, 5).join(' ')`. -/
def firstFiveWords (input : String) : String :=
  ⟨jsJoin [' '] ((jsSplitOn ' ' (jsTrim input.data)).take 5)⟩

/-- Title derived from the first user message (`sendMessage`, `src/App.tsx`):
the first five space-separated words, truncated to 30 characters with an
ellipsis marker appended when that prefix exceeds 30 characters. -/
def deriveThreadTitle (input : String) : String :=
  let firstWords := jsJoin [' '] ((jsSplitOn ' ' (jsTrim input.data)).take 5)
  if 30 < firstWords.length then ⟨firstWords.take 30⟩ ++ "..." else ⟨firstWords⟩

/-!
## Tool dispatcher (`src/services/tools.ts`)

`executeTool(name, args)` recognises `get_current_date` and `web_search`;
everything else falls through to a descriptive "not implemented" string.
The `web_search` branch wraps its whole body in `try/catch`, turning any
thrown error into an `Error al buscar en web: …` string.  The outcome of
the outbound `fetch` (and the ambient current date and API key) are inputs
of the model; `Except.error` represents a thrown JavaScript exception
carrying its message.
-/

/-- SerpAPI `answer_box` object: optional direct answer and snippet. -/
structure AnswerBox where
  answer : Option String
  snippet : Option String
deriving DecidableEq

/-- One SerpAPI organic search result. -/
structure SearchItem where
  title : String
  link : String
  snippet : Option String
deriving DecidableEq

/-- The parts of a SerpAPI response payload the code reads. -/
structure SerpData where
  answer_box : Option AnswerBox
  knowledge_graph_description : Option String
  organic_results : List SearchItem
deriving DecidableEq

/-- Outcome of the `fetch` to the SerpAPI proxy. -/
inductive FetchOutcome where
  | networkError (message : String)
  | httpError (status : Nat) (body : String)
  | success (data : SerpData)
deriving DecidableEq

/-- Ambient inputs of `executeTool`: the configured API key, the result of
the outbound search request, and the formatted current date. -/
structure ToolEnv where
  serpApiKey : Option String
  fetchOutcome : FetchOutcome
  currentDate : String

/-- The arguments value handed to the dispatcher; only `query` is read. -/
structure ToolArgs where
  query : Option String

/-- Answer-box section of the formatted web-search result. -/
def serpAnswerText (d : SerpData) : String :=
  match d.answer_box with
  | none => ""
  | some box =>
      match box.answer with
      | some a => "Respuesta Directa: " ++ a ++ "\n\n"
      | none =>
          match box.snippet with
          | some s => "Resumen Destacado: " ++ s ++ "\n\n"
          | none => ""

/-- Knowledge-graph section of the formatted web-search result. -/
def serpKnowledgeText (d : SerpData) : String :=
  match d.knowledge_graph_description with
  | some desc => "Información General: " ++ desc ++ "\n\n"
  | none => ""

/-- One numbered organic result line (1-based index shown). -/
def organicItemText (idx : Nat) (it : SearchItem) : String :=
  toString (idx + 1) ++ ". [" ++ it.title ++ "](" ++ it.link ++ ")\n" ++
    (match it.snippet with
     | some s => "   " ++ s ++ "\n"
     | none => "") ++ "\n"

/-- The `forEach` over the first five organic results. -/
def organicListText : Nat → List SearchItem → String
  | _, [] => ""
  | i, it :: rest => organicItemText i it ++ organicListText (i + 1) rest

/-- Organic-results section of the formatted web-search result. -/
def serpOrganicText (d : SerpData) : String :=
  if d.organic_results = [] then ""
  else "Resultados de búsqueda:\n" ++ organicListText 0 (d.organic_results.take 5)

/-- Body of the `try` block of the `web_search` branch.  `Except.error`
models a thrown exception (network failure, or the explicitly thrown
non-OK HTTP status error). -/
def webSearchBody (apiKey : Option String) (queryText : String)
    (outcome : FetchOutcome) : Except String String :=
  match apiKey with
  | none => .ok "Error: No se ha configurado la API Key de SerpAPI (SERPAPI_KEY)."
  | some _ =>
      match outcome with
      | .networkError m => .error m
      | .httpError status body =>
          .error ("SerpAPI Error (" ++ toString status ++ "): " ++ body)
      | .success d =>
          let result := serpAnswerText d ++ serpKnowledgeText d ++ serpOrganicText d
          if result = "" then
            .ok ("No se encontraron resultados relevantes en Google para \"" ++
              queryText ++ "\".")
          else .ok result

/-- `executeTool` (`src/services/tools.ts`).  The result is `Except.ok`
exactly when the JavaScript function returns normally; `Except.error`
would mean an exception escapes to the caller. -/
def executeTool (name : String) (args : ToolArgs) (env : ToolEnv) :
    Except String String :=
  if name = "get_current_date" then .ok env.currentDate
  else if name = "web_search" then
    .ok (match webSearchBody env.serpApiKey (args.query.getD "undefined")
           env.fetchOutcome with
         | .ok s => s
         | .error e => "Error al buscar en web: " ++ e)
  else .ok ("Herramienta " ++ name ++ " no implementada.")

/-!
## Conversation store (`src/services/localSqlite.ts`)

The sql.js tables are modelled as in-memory lists in insertion order;
`getRow` (`rows[0] || null`) becomes `List.find?`.  Timestamps are opaque
strings supplied by the caller (`nowIso()` in the source).
-/

/-- Row of the `agents` table (columns the queries read). -/
structure Agent where
  id : Nat
  name : String
  description : String
  system_prompt : String
deriving DecidableEq

/-- Row of the `threads` table. -/
structure Thread where
  id : Nat
  title : String
  agent_id : Option Nat
  updated_at : String
deriving DecidableEq

/-- Row of the `messages` table (`metrics` is the raw TEXT column). -/
structure DBMessage where
  id : Nat
  thread_id : Nat
  role : String
  content : String
  reasoning_content : Option String
  metrics : Option String
  created_at : String
deriving DecidableEq

/-- The whole database. -/
structure Store where
  agents : List Agent
  threads : List Thread
  messages : List DBMessage
deriving DecidableEq

/-- `getThread`: `SELECT … FROM threads WHERE id = ?`, first row or null. -/
def getThread (id : Nat) (st : Store) : Option Thread :=
  st.threads.find? (fun t => t.id == id)

/-- `getAgent`: `SELECT … FROM agents WHERE id = ?`, first row or null. -/
def getAgent (id : Nat) (st : Store) : Option Agent :=
  st.agents.find? (fun a => a.id == id)

/-- `deleteAgent`: `DELETE FROM agents WHERE id = ?`.  Threads and messages
are untouched; a thread referencing the agent keeps its dangling id. -/
def deleteAgent (id : Nat) (st : Store) : Store :=
  { st with agents := st.agents.filter (fun a => a.id != id) }

/-- A JavaScript object field that may be absent, explicitly `null`, or a
value — `x ?? y` skips over both `absent` and `nullv`. -/
inductive JSField (α : Type) where
  | absent
  | nullv
  | value (a : α)
deriving DecidableEq

/-- JavaScript nullish coalescing `f ?? fallback` where the fallback is a
nullable expression. -/
def jsCoalesce {α : Type} (f : JSField α) (fallback : Option α) : Option α :=
  match f with
  | .value a => some a
  | _ => fallback

/-- The `updates` argument of `updateThread` (`Partial<Pick<Thread, 'title' | 'agent_id'>>`). -/
structure ThreadUpdates where
  title : JSField String
  agent_id : JSField Nat

/-- `updateThread`: reads the existing row, computes
`nextTitle = updates.title ?? existing.title` and
`nextAgentId = updates.agent_id ?? existing.agent_id ?? null`, and runs
`UPDATE threads SET title = ?, agent_id = ?, updated_at = ? WHERE id = ?`. -/
def updateThread (id : Nat) (updates : ThreadUpdates) (now : String)
    (st : Store) : Store :=
  match getThread id st with
  | none => st
  | some existing =>
      let nextTitle :=
        match updates.title with
        | .value t => t
        | _ => existing.title
      let nextAgentId := jsCoalesce updates.agent_id existing.agent_id
      { st with
          threads := st.threads.map (fun t =>
            if t.id = id then
              { t with title := nextTitle, agent_id := nextAgentId, updated_at := now }
            else t) }

/-!
## Theorems: title derivation (C5)
-/

/-- C5, counterexample.  The claim says the first user message
"Can you help me plan a trip to Japan next spring" yields the title
"Can you help me" followed by an ellipsis.  The code takes the first
*five* words, "Can you help me plan" (20 characters), which does not
exceed 30 characters, so no ellipsis is appended. -/
theorem deriveThreadTitle_japan_counterexample :
    deriveThreadTitle "Can you help me plan a trip to Japan next spring" =
      "Can you help me plan" ∧
    deriveThreadTitle "Can you help me plan a trip to Japan next spring" ≠
      "Can you help me..." :=
  ⟨by decide, by decide⟩

/-- C5, amended.  The title is the first five space-separated words of the
trimmed message; only when that prefix exceeds 30 characters is it cut to
30 characters with an ellipsis marker appended.  For the scenario message
the five-word prefix is "Can you help me plan" (20 characters), so the
title is exactly that prefix, with no ellipsis. -/
theorem deriveThreadTitle_rule :
    deriveThreadTitle "Can you help me plan a trip to Japan next spring" =
      "Can you help me plan" ∧
    (firstFiveWords "Can you help me plan a trip to Japan next spring").length = 20 ∧
    ∀ s : String,
      if 30 < (firstFiveWords s).length then
        deriveThreadTitle s = ⟨(firstFiveWords s).data.take 30⟩ ++ "..."
      else
        deriveThreadTitle s = firstFiveWords s := by
  refine ⟨by decide, by decide, fun s => ?_⟩
  by_cases h : 30 < (firstFiveWords s).length
  · simp only [if_pos h]
    simp only [firstFiveWords, String.length_mk] at h ⊢
    simp only [deriveThreadTitle, if_pos h]
  · simp only [if_neg h]
    simp only [firstFiveWords, String.length_mk] at h ⊢
    simp only [deriveThreadTitle, if_neg h]

/-!
## Theorems: tool dispatcher (C8)
-/

/-- C8.  For every tool name, arguments value and environment, `executeTool`
returns normally with a string (never `Except.error`, i.e. never throws);
an unregistered name yields the descriptive "not implemented" string, and a
`web_search` whose fetch throws is converted into an error *string* result. -/
theorem executeTool_never_throws (name : String) (args : ToolArgs) (env : ToolEnv) :
    (∃ s, executeTool name args env = .ok s) ∧
    (name ≠ "get_current_date" → name ≠ "web_search" →
      executeTool name args env =
        .ok ("Herramienta " ++ name ++ " no implementada.")) ∧
    (∀ m key, env.fetchOutcome = .networkError m → env.serpApiKey = some key →
      executeTool "web_search" args env =
        .ok ("Error al buscar en web: " ++ m)) := by
  refine ⟨?_, ?_, ?_⟩
  · unfold executeTool
    by_cases h1 : name = "get_current_date"
    · rw [if_pos h1]
      exact ⟨_, rfl⟩
    · rw [if_neg h1]
      by_cases h2 : name = "web_search"
      · rw [if_pos h2]
        exact ⟨_, rfl⟩
      · rw [if_neg h2]
        exact ⟨_, rfl⟩
  · intro h1 h2
    simp [executeTool, h1, h2]
  · intro m key hm hk
    simp [executeTool, webSearchBody, hm, hk]

/-- C8, witness: a fully unknown tool name produces the descriptive string,
and a network-failing `web_search` produces the error string, both as
normal (non-throwing) results. -/
theorem executeTool_never_throws_witness :
    executeTool "abrir_puerta" ⟨none⟩
        ⟨some "k", .networkError "boom", "lunes"⟩ =
      .ok ("Herramienta " ++ "abrir_puerta" ++ " no implementada.") ∧
    executeTool "web_search" ⟨some "clima"⟩
        ⟨some "k", .networkError "boom", "lunes"⟩ =
      .ok ("Error al buscar en web: " ++ "boom") :=
  ⟨(executeTool_never_throws "abrir_puerta" ⟨none⟩
      ⟨some "k", .networkError "boom", "lunes"⟩).2.1 (by decide) (by decide),
   (executeTool_never_throws "web_search" ⟨some "clima"⟩
      ⟨some "k", .networkError "boom", "lunes"⟩).2.2 "boom" "k" rfl rfl⟩

/-!
## Theorems: conversation store (C9, C10)
-/

/-- C9.  Deleting an agent that a thread still references leaves the thread
readable and unchanged (the dangling `agent_id` included), and looking the
deleted agent up resolves to `none` rather than an error. -/
theorem deleteAgent_dangling_reference (st : Store) (tid aid : Nat) (th : Thread)
    (h1 : getThread tid st = some th) (h2 : th.agent_id = some aid) :
    getThread tid (deleteAgent aid st) = some th ∧
    getAgent aid (deleteAgent aid st) = none := by
  constructor
  · simpa [getThread, deleteAgent] using h1
  · rw [getAgent, List.find?_eq_none]
    intro a ha
    have := List.mem_filter.mp ha
    simpa using this.2

/-- C9, witness: a concrete store with one agent and one thread pointing at
it; deleting the agent keeps the thread readable and the lookup null. -/
theorem deleteAgent_dangling_reference_witness :
    getThread 1 (deleteAgent 7 ⟨[⟨7, "A", "d", "p"⟩], [⟨1, "T", some 7, "t0"⟩], []⟩) =
      some ⟨1, "T", some 7, "t0"⟩ ∧
    getAgent 7 (deleteAgent 7 ⟨[⟨7, "A", "d", "p"⟩], [⟨1, "T", some 7, "t0"⟩], []⟩) =
      none :=
  deleteAgent_dangling_reference _ 1 7 _ (by decide) (by decide)

/-- Helper: `find?` by id over a map that rewrites only the row with that id
(keeping its id) finds the rewritten original row. -/
theorem find_map_ite_id (l : List Thread) (id : Nat) (ttl : String)
    (ag : Option Nat) (now : String) :
    (l.map (fun t => if t.id = id then
        { t with title := ttl, agent_id := ag, updated_at := now }
      else t)).find? (fun t => t.id == id) =
      (l.find? (fun t => t.id == id)).map (fun t =>
        { t with title := ttl, agent_id := ag, updated_at := now }) := by
  induction l with
  | nil => rfl
  | cons t ts ih =>
      by_cases h : t.id = id
      · have hb : (t.id == id) = true := by simp [h]
        simp [List.find?, h, hb]
      · have hb : (t.id == id) = false := by simp [h]
        simp [List.find?, h, hb, ih]

/-- C10.  Updating a thread with `agent_id` explicitly `null` (and no title
field) leaves both the agent binding and the title unchanged: the nullish
coalescing `updates.agent_id ?? existing.agent_id ?? null` falls back to
the existing binding, so the reference cannot be cleared this way. -/
theorem updateThread_null_agent_keeps_binding (st : Store) (id : Nat)
    (now : String) (th : Thread) (h : getThread id st = some th) :
    ∃ th', getThread id (updateThread id ⟨.absent, .nullv⟩ now st) = some th' ∧
      th'.agent_id = th.agent_id ∧ th'.title = th.title := by
  refine ⟨{ th with updated_at := now }, ?_, rfl, rfl⟩
  unfold updateThread
  rw [h]
  unfold getThread
  simp only
  rw [find_map_ite_id]
  rw [getThread] at h
  rw [h]
  rfl

/-- C10, witness: a concrete thread bound to agent 7; an update carrying an
explicit `null` agent and no title leaves both fields as they were. -/
theorem updateThread_null_agent_keeps_binding_witness :
    ∃ th', getThread 1 (updateThread 1 ⟨.absent, .nullv⟩ "t2"
        ⟨[], [⟨1, "Hola", some 7, "t1"⟩], []⟩) = some th' ∧
      th'.agent_id = some 7 ∧ th'.title = "Hola" := by
  obtain ⟨th', h1, h2, h3⟩ :=
    updateThread_null_agent_keeps_binding ⟨[], [⟨1, "Hola", some 7, "t1"⟩], []⟩ 1 "t2"
      ⟨1, "Hola", some 7, "t1"⟩ (by decide)
  exact ⟨th', h1, h2, h3⟩

/-!
## Transport stream reader (`src/services/groq.ts`, read loop)

```
buffer += decoder.decode(value, { stream: true });
const lines = buffer.split('\n');
buffer = lines.pop() || '';
for (const line of lines) {
  const trimmed = line.trim();
  if (!trimmed.startsWith('data:')) continue;
  const payload = trimmed.replace(/^data:\s*/, '');
  if (payload === '[DONE]') return;
  … JSON.parse(payload) …
}
```

Chunks are modelled as decoded character lists (for byte chunks,
`TextDecoder` in streaming mode guarantees the decoded characters are the
concatenation of the per-chunk decodings, whatever the byte offsets).
A frame is the payload text of one `data:` line before `[DONE]`.
-/

/-- The `buffer.split('\n')` / `lines.pop()` step: complete lines of the
input, plus the trailing (possibly empty) unterminated fragment. -/
def splitLines : List Char → List (List Char) × List Char
  | [] => ([], [])
  | c :: cs =>
      let r := splitLines cs
      if c = '\n' then ([] :: r.1, r.2)
      else
        match r with
        | ([], frag) => ([], c :: frag)
        | (l :: ls, frag) => ((c :: l) :: ls, frag)

/-- Classify one complete line: `none` means the line is skipped (no
`data:` token), `some none` is the `[DONE]` sentinel, `some (some p)`
yields the payload `p`. -/
def frameOfLine (line : List Char) : Option (Option (List Char)) :=
  let trimmed := jsTrim line
  if ("data:").data.isPrefixOf trimmed then
    let payload := (trimmed.drop 5).dropWhile Char.isWhitespace
    if payload = ("[DONE]").data then some none else some (some payload)
  else none

/-- Process the complete lines of one chunk in order, yielding payload
frames; the flag records whether `[DONE]` was reached (which returns from
the whole reader, so later lines are never examined). -/
def processLines : List (List Char) → List (List Char) × Bool
  | [] => ([], false)
  | l :: ls =>
      match frameOfLine l with
      | none => processLines ls
      | some none => ([], true)
      | some (some p) =>
          let r := processLines ls
          (p :: r.1, r.2)

/-- The `streamGroqChat` read loop: each chunk is appended to the pending
buffer, complete lines are processed, and the trailing fragment is held
back; `[DONE]` stops everything, and an unterminated trailing buffer at
end-of-stream is dropped. -/
def streamGroqChatFrames : List Char → List (List Char) → List (List Char)
  | _, [] => []
  | buffer, chunk :: rest =>
      let p := splitLines (buffer ++ chunk)
      let q := processLines p.1
      if q.2 then q.1 else q.1 ++ streamGroqChatFrames p.2 rest

/-- The held-back fragment never contains a newline. -/
theorem splitLines_frag_no_newline (l : List Char) : '\n' ∉ (splitLines l).2 := by
  induction l with
  | nil => simp [splitLines]
  | cons c cs ih =>
      by_cases h : c = '\n'
      · simpa [splitLines, h] using ih
      · rcases hr : splitLines cs with ⟨ls, frag⟩
        rw [hr] at ih
        cases ls with
        | nil =>
            simp [splitLines, h, hr]
            exact ⟨fun hc => h hc.symm, ih⟩
        | cons x xs => simpa [splitLines, h, hr] using ih

/-- A newline-free input is all fragment, no complete line. -/
theorem splitLines_no_newline (l : List Char) (h : '\n' ∉ l) :
    splitLines l = ([], l) := by
  induction l with
  | nil => rfl
  | cons c cs ih =>
      have hc : ¬ c = '\n' := fun e => h (by simp [e])
      have ih' := ih (fun hm => h (List.mem_cons_of_mem _ hm))
      simp [splitLines, hc, ih']

/-- Splitting a concatenation: the first part's complete lines come out
unchanged, and its fragment is prepended to the rest. -/
theorem splitLines_append (a b : List Char) :
    splitLines (a ++ b) =
      ((splitLines a).1 ++ (splitLines ((splitLines a).2 ++ b)).1,
        (splitLines ((splitLines a).2 ++ b)).2) := by
  induction a with
  | nil => simp [splitLines]
  | cons c a' ih =>
      by_cases h : c = '\n'
      · simp [splitLines, h, ih]
      · rcases ha : splitLines a' with ⟨ls, frag⟩
        rcases hb : splitLines (frag ++ b) with ⟨ls2, frag2⟩
        rw [ha] at ih
        dsimp only at ih
        rw [hb] at ih
        cases ls with
        | nil =>
            cases ls2 with
            | nil => simp [splitLines, h, ha, hb, ih]
            | cons x xs => simp [splitLines, h, ha, hb, ih]
        | cons y ys => simp [splitLines, h, ha, hb, ih]

/-- Processing concatenated line lists: if the first part hits `[DONE]`
the rest is never examined, otherwise the outputs concatenate. -/
theorem processLines_append (xs ys : List (List Char)) :
    processLines (xs ++ ys) =
      if (processLines xs).2 then processLines xs
      else ((processLines xs).1 ++ (processLines ys).1, (processLines ys).2) := by
  induction xs with
  | nil => simp [processLines]
  | cons l ls ih =>
      cases hf : frameOfLine l with
      | none => simpa [processLines, hf] using ih
      | some o =>
          cases o with
          | none => simp [processLines, hf]
          | some p =>
              rw [List.cons_append]
              simp only [processLines, hf, ih]
              by_cases hd : (processLines ls).2 = true
              · simp [hd]
              · simp at hd
                simp [hd]

/-- The reader applied to any chunking equals processing the complete
lines of the whole stream at once (always dropping the final fragment). -/
theorem streamGroqChatFrames_eq_whole (chunks : List (List Char)) :
    ∀ buffer : List Char, '\n' ∉ buffer →
      streamGroqChatFrames buffer chunks =
        (processLines (splitLines (buffer ++ chunks.flatten)).1).1 := by
  induction chunks with
  | nil =>
      intro buffer hb
      simp [streamGroqChatFrames, splitLines_no_newline _ hb, processLines]
  | cons chunk rest ih =>
      intro buffer _
      have hassoc : buffer ++ (chunk :: rest).flatten =
          (buffer ++ chunk) ++ rest.flatten := by
        simp [List.flatten]
      rw [hassoc, splitLines_append]
      simp only [streamGroqChatFrames]
      rw [processLines_append]
      by_cases hd : (processLines (splitLines (buffer ++ chunk)).1).2 = true
      · simp [hd]
      · simp only [Bool.not_eq_true] at hd
        simp only [hd, if_false, Bool.false_eq_true]
        rw [ih _ (splitLines_frag_no_newline (buffer ++ chunk))]

/-- C2.  For every two chunkings of the same character stream (in
particular every way of cutting the stream at arbitrary offsets), the
transport stream reader yields the identical ordered sequence of frames:
the pending buffer holds back each chunk's trailing incomplete line, so
frame boundaries do not depend on chunk boundaries. -/
theorem streamGroqChatFrames_chunking_invariant (c1 c2 : List (List Char))
    (h : c1.flatten = c2.flatten) :
    streamGroqChatFrames [] c1 = streamGroqChatFrames [] c2 := by
  rw [streamGroqChatFrames_eq_whole c1 [] (by simp),
    streamGroqChatFrames_eq_whole c2 [] (by simp), h]

/-- C2, witness: a two-frame stream cut in the middle of the second
`data:` token yields the same frames as the stream delivered whole. -/
theorem streamGroqChatFrames_chunking_invariant_witness :
    ([("data: a\nda").data, ("ta: b\n").data].flatten =
      [("data: a\ndata: b\n").data].flatten) ∧
    streamGroqChatFrames [] [("data: a\nda").data, ("ta: b\n").data] =
      streamGroqChatFrames [] [("data: a\ndata: b\n").data] ∧
    streamGroqChatFrames [] [("data: a\ndata: b\n").data] =
      [("a").data, ("b").data] :=
  ⟨by decide,
   streamGroqChatFrames_chunking_invariant _ _ (by decide),
   by decide⟩

/-!
## Delta accumulator (`processChatInteraction`, `src/App.tsx` lines 504–565)

Frames are modelled after `JSON.parse`: the `choices[0].delta` object with
its optional `reasoning_content`, `content` and `tool_calls` fields
(absent or falsy string fields are `""`).  `Date.now()` readings are the
`Nat` timestamps paired with each delta, plus one end-of-stream reading.
-/

/-- The four reasoning tiers of the configuration. -/
inductive ReasoningLevel where
  | instant
  | low
  | medium
  | high
deriving DecidableEq

/-- One incremental tool-call fragment, `delta.tool_calls[0]`: an `id`
opens a descriptor (with `function.name`), an id-less fragment carries an
`function.arguments` piece (`""` models an absent or empty, falsy, field). -/
structure ToolCallFragment where
  id : Option String
  name : String
  arguments : String
deriving DecidableEq

/-- One parsed frame's `choices[0].delta`. -/
structure Delta where
  reasoning_content : String
  content : String
  tool_calls : Option ToolCallFragment
deriving DecidableEq

/-- A tool-call descriptor accumulated in `toolCallsArgs`. -/
structure ToolCallDesc where
  id : String
  name : String
  arguments : String
deriving DecidableEq

/-- The loop-local state of the streaming read loop: the three text/call
accumulators, the open-descriptor index (`-1` becomes `none`), the two
wall-clock marks, and the in-progress message's metric. -/
structure AccState where
  assistantContent : String
  assistantReasoning : String
  toolCalls : List ToolCallDesc
  currentToolCallIndex : Option Nat
  reasoningStartTime : Option Nat
  reasoningEndTime : Option Nat
  metrics : Option Nat
deriving DecidableEq

/-- State at the top of the read loop. -/
def initAccState : AccState := ⟨"", "", [], none, none, none, none⟩

/-- Process one parsed delta at wall-clock time `t`. -/
def stepDelta (level : ReasoningLevel) (st : AccState) (t : Nat) (d : Delta) :
    AccState :=
  let st1 :=
    if d.reasoning_content ≠ "" ∧ level ≠ .instant ∧ level ≠ .low then
      { st with
          reasoningStartTime := some (st.reasoningStartTime.getD t),
          assistantReasoning := st.assistantReasoning ++ d.reasoning_content }
    else st
  let st2 :=
    if d.content ≠ "" then
      let st' :=
        match st1.reasoningStartTime, st1.reasoningEndTime with
        | some s, none =>
            { st1 with reasoningEndTime := some t, metrics := some (t - s) }
        | _, _ => st1
      { st' with assistantContent := st'.assistantContent ++ d.content }
    else st1
  match d.tool_calls with
  | none => st2
  | some tc =>
      match tc.id with
      | some i =>
          { st2 with
              toolCalls := st2.toolCalls ++ [⟨i, tc.name, ""⟩],
              currentToolCallIndex := some st2.toolCalls.length }
      | none =>
          match st2.currentToolCallIndex with
          | some k =>
              if tc.arguments ≠ "" then
                match st2.toolCalls.get? k with
                | some dsc =>
                    { st2 with
                        toolCalls := st2.toolCalls.set k
                          { dsc with arguments := dsc.arguments ++ tc.arguments } }
                | none => st2
              else st2
          | none => st2

/-- End-of-stream finalisation (lines 554–565): a reasoning interval left
open is closed at the end-of-stream clock reading and the metric is set. -/
def finalizeStream (st : AccState) (tEnd : Nat) : AccState :=
  match st.reasoningStartTime, st.reasoningEndTime with
  | some s, none =>
      { st with reasoningEndTime := some tEnd, metrics := some (tEnd - s) }
  | _, _ => st

/-- The whole stream: fold the timestamped deltas, then finalise. -/
def runStream (level : ReasoningLevel) (frames : List (Nat × Delta))
    (tEnd : Nat) : AccState :=
  finalizeStream
    (frames.foldl (fun st p => stepDelta level st p.1 p.2) initAccState) tEnd

/-- A delta with no `content` never closes the reasoning interval. -/
theorem stepDelta_no_content_end (level : ReasoningLevel) (st : AccState)
    (t : Nat) (d : Delta) (hd : d.content = "") :
    (stepDelta level st t d).reasoningEndTime = st.reasoningEndTime := by
  have hc : ¬ d.content ≠ "" := by simp [hd]
  simp only [stepDelta]
  by_cases h1 : d.reasoning_content ≠ "" ∧ level ≠ .instant ∧ level ≠ .low
  all_goals
    first
      | rw [if_pos h1, if_neg hc]
      | rw [if_neg h1, if_neg hc]
  all_goals
    split
    · rfl
    · split
      · rfl
      · split
        · split
          · split <;> rfl
          · rfl
        · rfl

/-- A processed delta never clears the reasoning start mark. -/
theorem stepDelta_start_mono (level : ReasoningLevel) (st : AccState)
    (t : Nat) (d : Delta) (h : st.reasoningStartTime ≠ none) :
    (stepDelta level st t d).reasoningStartTime ≠ none := by
  obtain ⟨s, hs⟩ := Option.ne_none_iff_exists'.mp h
  rcases hse : st.reasoningEndTime with _ | e
  all_goals simp only [stepDelta, hs, hse]
  all_goals by_cases h1 : d.reasoning_content ≠ "" ∧ level ≠ .instant ∧ level ≠ .low
  all_goals
    first
      | rw [if_pos h1]
      | rw [if_neg h1]
  all_goals by_cases hc : d.content ≠ ""
  all_goals
    first
      | rw [if_pos hc]
      | rw [if_neg hc]
  all_goals split
  all_goals try split
  all_goals try split
  all_goals try split
  all_goals try split
  all_goals simp [hs, hse]

/-- A reasoning fragment at an accumulating tier opens (or keeps open) the
reasoning interval. -/
theorem stepDelta_sets_start (level : ReasoningLevel) (st : AccState)
    (t : Nat) (d : Delta) (hli : level ≠ .instant) (hll : level ≠ .low)
    (hr : d.reasoning_content ≠ "") :
    (stepDelta level st t d).reasoningStartTime ≠ none := by
  have hcond : d.reasoning_content ≠ "" ∧ level ≠ .instant ∧ level ≠ .low :=
    ⟨hr, hli, hll⟩
  rcases hse : st.reasoningEndTime with _ | e
  all_goals simp only [stepDelta, hse]
  all_goals rw [if_pos hcond]
  all_goals by_cases hc : d.content ≠ ""
  all_goals
    first
      | rw [if_pos hc]
      | rw [if_neg hc]
  all_goals split
  all_goals try split
  all_goals try split
  all_goals try split
  all_goals try split
  all_goals simp

/-- Folding content-free deltas never closes the reasoning interval. -/
theorem foldl_no_content_end (level : ReasoningLevel)
    (frames : List (Nat × Delta)) :
    ∀ st : AccState, (∀ f ∈ frames, (f : Nat × Delta).2.content = "") →
      (frames.foldl (fun st p => stepDelta level st p.1 p.2) st).reasoningEndTime
        = st.reasoningEndTime := by
  induction frames with
  | nil => intro st _; rfl
  | cons f fs ih =>
      intro st hall
      rw [List.foldl_cons, ih _ (fun g hg => hall g (List.mem_cons_of_mem _ hg)),
        stepDelta_no_content_end level st f.1 f.2 (hall f (List.mem_cons_self _ _))]

/-- Folding more deltas never clears an opened reasoning interval. -/
theorem foldl_start_mono (level : ReasoningLevel)
    (frames : List (Nat × Delta)) :
    ∀ st : AccState, st.reasoningStartTime ≠ none →
      (frames.foldl (fun st p => stepDelta level st p.1 p.2) st).reasoningStartTime
        ≠ none := by
  induction frames with
  | nil => intro st h; exact h
  | cons f fs ih =>
      intro st h
      rw [List.foldl_cons]
      exact ih _ (stepDelta_start_mono level st f.1 f.2 h)

/-- C3, counterexample.  A stream carrying only reasoning fragments at the
suppressed "instant" tier never opens a reasoning interval, so the
finalized message's reasoning-duration metric stays unset, contradicting
the claim's unconditional "still carries a non-null metric". -/
theorem reasoning_metric_instant_counterexample :
    (runStream .instant [(0, ⟨"pienso", "", none⟩)] 5).metrics = none ∧
    (runStream .instant [(0, ⟨"pienso", "", none⟩)] 5).reasoningStartTime = none := by
  decide

/-- C3, amended.  At the tiers that accumulate reasoning (`medium`, `high`),
a stream with at least one reasoning fragment and no answer fragment ends
with the open reasoning interval closed at the end-of-stream clock reading
and a non-null reasoning-duration metric. -/
theorem reasoning_only_stream_finalizes_metric (level : ReasoningLevel)
    (frames : List (Nat × Delta)) (tEnd : Nat)
    (hlevel : level = .medium ∨ level = .high)
    (hnoAnswer : ∀ f ∈ frames, (f : Nat × Delta).2.content = "")
    (hreason : ∃ f ∈ frames, (f : Nat × Delta).2.reasoning_content ≠ "") :
    (runStream level frames tEnd).metrics ≠ none ∧
    (runStream level frames tEnd).reasoningEndTime = some tEnd := by
  have hli : level ≠ .instant := by rcases hlevel with h | h <;> subst h <;> simp
  have hll : level ≠ .low := by rcases hlevel with h | h <;> subst h <;> simp
  obtain ⟨f0, hmem, hr⟩ := hreason
  obtain ⟨pre, post, rfl⟩ := List.append_of_mem hmem
  have hstart :
      ((pre ++ f0 :: post).foldl (fun st p => stepDelta level st p.1 p.2)
        initAccState).reasoningStartTime ≠ none := by
    rw [List.foldl_append, List.foldl_cons]
    exact foldl_start_mono level post _
      (stepDelta_sets_start level _ f0.1 f0.2 hli hll hr)
  have hend :
      ((pre ++ f0 :: post).foldl (fun st p => stepDelta level st p.1 p.2)
        initAccState).reasoningEndTime = none :=
    foldl_no_content_end level (pre ++ f0 :: post) initAccState hnoAnswer
  obtain ⟨s, hs⟩ := Option.ne_none_iff_exists'.mp hstart
  unfold runStream finalizeStream
  rw [hs, hend]
  simp

/-- C3, witness: a single reasoning fragment at time 3, stream end at 10,
medium tier: the metric is set and the interval closed at 10. -/
theorem reasoning_only_stream_finalizes_metric_witness :
    (runStream .medium [(3, ⟨"hmm", "", none⟩)] 10).metrics ≠ none ∧
    (runStream .medium [(3, ⟨"hmm", "", none⟩)] 10).reasoningEndTime = some 10 :=
  reasoning_only_stream_finalizes_metric .medium [(3, ⟨"hmm", "", none⟩)] 10
    (Or.inl rfl) (by decide) ⟨(3, ⟨"hmm", "", none⟩), by decide, by decide⟩

/-- At the "instant" tier a delta never touches the reasoning buffer. -/
theorem stepDelta_instant_reasoning (st : AccState) (t : Nat) (d : Delta) :
    (stepDelta .instant st t d).assistantReasoning = st.assistantReasoning := by
  rcases hst : st.reasoningStartTime with _ | s
  all_goals rcases hse : st.reasoningEndTime with _ | e
  all_goals simp only [stepDelta]
  all_goals
    rw [if_neg (by simp :
      ¬(d.reasoning_content ≠ "" ∧
        (ReasoningLevel.instant : ReasoningLevel) ≠ ReasoningLevel.instant ∧
        (ReasoningLevel.instant : ReasoningLevel) ≠ ReasoningLevel.low))]
  all_goals simp only [hst, hse]
  all_goals by_cases hc : d.content ≠ ""
  all_goals
    first
      | rw [if_pos hc]
      | rw [if_neg hc]
  all_goals split
  all_goals try split
  all_goals try split
  all_goals try split
  all_goals try split
  all_goals rfl

/-- C6.  When the reasoning level is the lowest tier ("instant"), reasoning
accumulation is suppressed entirely: for every stream and every prefix of
it (i.e. at every intermediate render update), the reasoning buffer — and
with it the in-progress message's `reasoning_content` — stays empty. -/
theorem instant_level_suppresses_reasoning (frames : List (Nat × Delta))
    (tEnd : Nat) :
    (runStream .instant frames tEnd).assistantReasoning = "" ∧
    ∀ k : Nat, (runStream .instant (frames.take k) tEnd).assistantReasoning = "" := by
  have key : ∀ (fs : List (Nat × Delta)) (st : AccState),
      (fs.foldl (fun st p => stepDelta .instant st p.1 p.2) st).assistantReasoning
        = st.assistantReasoning := by
    intro fs
    induction fs with
    | nil => intro st; rfl
    | cons f fs ih =>
        intro st
        rw [List.foldl_cons, ih, stepDelta_instant_reasoning]
  have hfin : ∀ (st : AccState) (tE : Nat),
      (finalizeStream st tE).assistantReasoning = st.assistantReasoning := by
    intro st tE
    unfold finalizeStream
    split <;> rfl
  constructor
  · rw [runStream, hfin, key]
    rfl
  · intro k
    rw [runStream, hfin, key]
    rfl

/-!
## Turn controller (`processChatInteraction`, `src/App.tsx` lines 425–601)

The loop state is the working message list `msgs`, seeded with
`allMessages.slice(-10)` **once** before the loop.  Each loop entry builds
`messagesPayload` (one synthesized system message plus `msgs` mapped to
wire fields) and issues one `fetch`.  The responses the network returns
are a scripted input of the model, one `IterScript` per stream: its
timestamped deltas, the end-of-stream clock reading, and the string each
executed tool call produces (`executeTool` abstracted over its ambient
environment).  An exhausted script models a transport failure: the request
was already issued and the thrown error aborts the turn.

Before executing a tool call the loop runs
`JSON.parse(toolCall.function.arguments)` with no surrounding `try`
(line 582): when the accumulated arguments text is not valid JSON the
thrown `SyntaxError` aborts the whole turn before any further fetch.
`jsonParseOk` below decides that parse's success by checking the JSON
grammar (ECMA-404, the grammar `JSON.parse` accepts): a value is `null`,
`true`, `false`, a number, a string, an array or an object, with the four
JSON whitespace characters allowed around tokens.
-/

/-- The four JSON whitespace characters. -/
def jsonWS (c : Char) : Bool :=
  c == ' ' || c == '\t' || c == '\n' || c == '\r'

/-- Skip JSON whitespace. -/
def skipJsonWS (l : List Char) : List Char :=
  l.dropWhile jsonWS

/-- Hexadecimal digit (for `\uXXXX` escapes). -/
def isHexDigitChar (c : Char) : Bool :=
  c.isDigit || ('a' ≤ c && c ≤ 'f') || ('A' ≤ c && c ≤ 'F')

/-- Rest of a JSON string after the opening quote: plain characters above
U+001F, the eight single-character escapes, and `\uXXXX`; returns the
input remaining after the closing quote. -/
def jsonStringBody : Nat → List Char → Option (List Char)
  | 0, _ => none
  | fuel + 1, l =>
      match l with
      | [] => none
      | c :: rest =>
          if c = '"' then some rest
          else if c = '\\' then
            match rest with
            | [] => none
            | e :: rest2 =>
                if e = 'u' then
                  match rest2 with
                  | a :: b :: c2 :: d :: rest3 =>
                      if isHexDigitChar a && isHexDigitChar b &&
                          isHexDigitChar c2 && isHexDigitChar d then
                        jsonStringBody fuel rest3
                      else none
                  | _ => none
                else if e = '"' || e = '\\' || e = '/' || e = 'b' || e = 'f' ||
                    e = 'n' || e = 'r' || e = 't' then
                  jsonStringBody fuel rest2
                else none
          else if c.toNat < 32 then none
          else jsonStringBody fuel rest

/-- One or more digits, returning the rest. -/
def jsonDigits1 (l : List Char) : Option (List Char) :=
  match l with
  | c :: rest => if c.isDigit then some (rest.dropWhile Char.isDigit) else none
  | [] => none

/-- A JSON number: optional minus, `0` or a nonzero-led digit run, an
optional fraction and an optional exponent. -/
def jsonNumber (l : List Char) : Option (List Char) :=
  let afterSign :=
    match l with
    | '-' :: r => r
    | _ => l
  let afterInt : Option (List Char) :=
    match afterSign with
    | '0' :: r => some r
    | c :: r => if c.isDigit then some (r.dropWhile Char.isDigit) else none
    | [] => none
  match afterInt with
  | none => none
  | some r =>
      let afterFrac : Option (List Char) :=
        match r with
        | '.' :: r2 => jsonDigits1 r2
        | _ => some r
      match afterFrac with
      | none => none
      | some r2 =>
          match r2 with
          | c :: r3 =>
              if c = 'e' ∨ c = 'E' then
                let r4 :=
                  match r3 with
                  | '+' :: r5 => r5
                  | '-' :: r5 => r5
                  | _ => r3
                jsonDigits1 r4
              else some r2
          | [] => some r2

/-- A literal keyword tail (`rue`, `alse`, `ull`). -/
def jsonLit (lit : List Char) (l : List Char) : Option (List Char) :=
  if lit.isPrefixOf l then some (l.drop lit.length) else none

mutual

/-- One JSON value after optional leading whitespace, returning the rest
of the input. -/
def jsonValue : Nat → List Char → Option (List Char)
  | 0, _ => none
  | fuel + 1, l =>
      match skipJsonWS l with
      | [] => none
      | c :: rest =>
          if c = '"' then jsonStringBody (rest.length + 1) rest
          else if c = '\x7b' then
            match skipJsonWS rest with
            | '\x7d' :: r => some r
            | r => jsonObjectItems fuel r
          else if c = '[' then
            match skipJsonWS rest with
            | ']' :: r => some r
            | r => jsonArrayItems fuel r
          else if c = 't' then jsonLit ("rue").data rest
          else if c = 'f' then jsonLit ("alse").data rest
          else if c = 'n' then jsonLit ("ull").data rest
          else jsonNumber (c :: rest)

/-- Comma-separated values up to the closing bracket. -/
def jsonArrayItems : Nat → List Char → Option (List Char)
  | 0, _ => none
  | fuel + 1, l =>
      match jsonValue fuel l with
      | none => none
      | some r =>
          match skipJsonWS r with
          | ',' :: r2 => jsonArrayItems fuel r2
          | ']' :: r2 => some r2
          | _ => none

/-- Comma-separated `"key": value` pairs up to the closing brace. -/
def jsonObjectItems : Nat → List Char → Option (List Char)
  | 0, _ => none
  | fuel + 1, l =>
      match skipJsonWS l with
      | '"' :: r =>
          match jsonStringBody (r.length + 1) r with
          | none => none
          | some r1 =>
              match skipJsonWS r1 with
              | ':' :: r2 =>
                  match jsonValue fuel r2 with
                  | none => none
                  | some r3 =>
                      match skipJsonWS r3 with
                      | ',' :: r4 => jsonObjectItems fuel r4
                      | '\x7d' :: r4 => some r4
                      | _ => none
              | _ => none
      | _ => none

end

/-- Whether `JSON.parse` accepts this text: one JSON value with nothing
but whitespace around it.  In particular `jsonParseOk "" = false` (the
empty accumulated arguments of a tool call that never received an
argument fragment make the parse throw). -/
def jsonParseOk (s : String) : Bool :=
  match jsonValue (2 * s.data.length + 2) s.data with
  | some rest => (skipJsonWS rest).isEmpty
  | none => false

/-- One entry of the working message list of a turn. -/
structure WorkMsg where
  role : String
  content : String
  reasoning_content : String := ""
  metrics : Option Nat := none
  tool_calls : List ToolCallDesc := []
  tool_call_id : Option String := none
deriving DecidableEq

/-- One entry of `messagesPayload`: the fields put on the wire
(`role`, `content`, `tool_calls`, `tool_call_id`). -/
structure PayloadEntry where
  role : String
  content : String
  tool_calls : List ToolCallDesc
  tool_call_id : Option String
deriving DecidableEq

/-- The projection applied to every working message before sending. -/
def toPayloadEntry (m : WorkMsg) : PayloadEntry :=
  ⟨m.role, m.content, m.tool_calls, m.tool_call_id⟩

/-- `GLOBAL_SYSTEM_PROMPT` (the trimmed template literal). -/
def GLOBAL_SYSTEM_PROMPT : String :=
  "Eres un asistente de IA útil y capaz.\nTienes acceso a herramientas para buscar en internet (web_search) y ver la fecha (get_current_date).\nÚsalas cuando el usuario te pida información actual o fechas.\nNo inventes información si puedes buscarla."

/-- The reasoning-level-specific directives appended to the system prompt. -/
def levelSuffix (level : ReasoningLevel) : String :=
  (if level = .high then "\n\nRazona paso a paso y justifica cada decisión." else "") ++
    (if level = .instant ∨ level = .low then
      "\n\nIMPORTANT: Do NOT think, reason or use internal monologue. Provide a direct and concise answer immediately."
    else "")

/-- `combinedSystemPrompt`: global instructions, the active agent's
`system_prompt` when one is selected, and the level directives. -/
def combinedSystemPrompt (level : ReasoningLevel) (agent : Option Agent) : String :=
  match agent with
  | some a =>
      GLOBAL_SYSTEM_PROMPT ++ "\n\n---\n\nInstrucciones Específicas del Agente:\n" ++
        a.system_prompt ++ levelSuffix level
  | none => GLOBAL_SYSTEM_PROMPT ++ levelSuffix level

/-- `maxTokensMap`: the per-tier answer-length ceiling. -/
def maxTokensMap : ReasoningLevel → Nat
  | .instant => 64
  | .low => 128
  | .medium => 1024
  | .high => 4096

/-- One scripted stream response for one loop iteration. -/
structure IterScript where
  frames : List (Nat × Delta)
  tEnd : Nat
  toolResult : ToolCallDesc → String

/-- One recorded outbound request: the messages payload and the derived
request parameters (`max_tokens` and the `reasoning.enabled` flag). -/
structure RequestRecord where
  payload : List PayloadEntry
  max_tokens : Nat
  reasoningEnabled : Bool
deriving Inhabited, DecidableEq

/-- `MAX_ITERATIONS` in `processChatInteraction`. -/
def MAX_ITERATIONS : Nat := 5

/-- The `while (iteration < MAX_ITERATIONS)` loop; `fuel` is the number of
iterations left.  Each loop entry issues exactly one request; a stream
ending with accumulated tool calls runs
`JSON.parse(toolCall.function.arguments)` followed by `executeTool` for
each call in order, appends the assistant message and the tool outputs to
`msgs` and loops, otherwise the turn ends.  A failing parse throws with no
handler in the loop, aborting the turn before any further fetch: the loop
reaches the next iteration exactly when every accumulated descriptor's
arguments text parses. -/
def turnLoop (level : ReasoningLevel) (sys : PayloadEntry) :
    Nat → List WorkMsg → List IterScript → List RequestRecord
  | 0, _, _ => []
  | _ + 1, msgs, [] =>
      [⟨sys :: msgs.map toPayloadEntry, maxTokensMap level,
        level != .low && level != .instant⟩]
  | fuel + 1, msgs, it :: rest =>
      let req : RequestRecord :=
        ⟨sys :: msgs.map toPayloadEntry, maxTokensMap level,
          level != .low && level != .instant⟩
      let acc := runStream level it.frames it.tEnd
      if acc.toolCalls ≠ [] then
        if acc.toolCalls.all (fun c => jsonParseOk c.arguments) then
          let asst : WorkMsg :=
            { role := "assistant", content := acc.assistantContent,
              tool_calls := acc.toolCalls }
          let outs : List WorkMsg := acc.toolCalls.map (fun c =>
            { role := "tool", content := it.toolResult c, tool_call_id := some c.id })
          req :: turnLoop level sys fuel (msgs ++ asst :: outs) rest
        else [req]
      else [req]

/-- `processChatInteraction`: truncate the history to `slice(-10)` once,
then run the tool loop with the synthesized system message.  The result is
the ordered list of outbound requests of the turn. -/
def processChatInteraction (level : ReasoningLevel) (agent : Option Agent)
    (allMessages : List WorkMsg) (script : List IterScript) :
    List RequestRecord :=
  let contextMessages := allMessages.drop (allMessages.length - 10)
  turnLoop level ⟨"system", combinedSystemPrompt level agent, [], none⟩
    MAX_ITERATIONS contextMessages script

/-- The loop issues at most `fuel` requests. -/
theorem turnLoop_length_le (level : ReasoningLevel) (sys : PayloadEntry) :
    ∀ (fuel : Nat) (msgs : List WorkMsg) (script : List IterScript),
      (turnLoop level sys fuel msgs script).length ≤ fuel := by
  intro fuel
  induction fuel with
  | zero => intro msgs script; simp [turnLoop]
  | succ n ih =>
      intro msgs script
      cases script with
      | nil => simp [turnLoop]
      | cons it rest =>
          rw [turnLoop]
          split
          · split
            · simpa using ih _ rest
            · simp
          · simp

/-- C1.  For every configuration, history and scripted sequence of stream
responses — including a stream that returns a tool call on every
iteration — one user submission issues at most `MAX_ITERATIONS = 5`
outbound requests: the iteration counter bounds the tool loop. -/
theorem tool_loop_at_most_five_requests (level : ReasoningLevel)
    (agent : Option Agent) (allMessages : List WorkMsg)
    (script : List IterScript) :
    (processChatInteraction level agent allMessages script).length ≤ 5 ∧
    MAX_ITERATIONS = 5 :=
  ⟨turnLoop_length_le level _ MAX_ITERATIONS _ script, rfl⟩

/-- C4, counterexample.  Ten prior messages; the first stream opens a tool
call and then appends the argument fragment `{}` — a valid JSON arguments
text, so `JSON.parse` succeeds and the loop reaches the second fetch.
That second request carries 12 conversational entries — the
once-truncated window of 10 plus the assistant tool-call message and the
tool result — so the payload of a tool-loop iteration after the first is
*not* truncated to the most recent 10 entries. -/
theorem window_truncation_counterexample :
    let reqs := processChatInteraction .medium none
      (List.replicate 10 ⟨"user", "hola", "", none, [], none⟩)
      [⟨[(0, ⟨"", "", some ⟨some "c1", "get_current_date", ""⟩⟩),
         (1, ⟨"", "", some ⟨none, "", "\x7b\x7d"⟩⟩)], 1,
        fun _ => "lunes"⟩]
    reqs.length = 2 ∧
    (((reqs.getD 1 default).payload.filter (fun e => e.role != "system")).length
      = 12) ∧
    10 < ((reqs.getD 1 default).payload.filter
      (fun e => e.role != "system")).length := by
  decide

/-- The first request of the loop carries exactly the seeded window. -/
theorem turnLoop_head (level : ReasoningLevel) (sys : PayloadEntry)
    (fuel : Nat) (msgs : List WorkMsg) (script : List IterScript)
    (hfuel : 0 < fuel) :
    (turnLoop level sys fuel msgs script).head?.map (fun r => r.payload) =
      some (sys :: msgs.map toPayloadEntry) := by
  cases fuel with
  | zero => exact absurd hfuel (by simp)
  | succ n =>
      cases script with
      | nil => rfl
      | cons it rest =>
          rw [turnLoop]
          split
          · split <;> rfl
          · rfl

/-- Every request of the loop extends the seeded working list: the payload
is the system message, the entries of `msgs`, then whatever the loop
appended later. -/
theorem turnLoop_payload_extends (level : ReasoningLevel) (sys : PayloadEntry) :
    ∀ (fuel : Nat) (msgs : List WorkMsg) (script : List IterScript),
      ∀ r ∈ turnLoop level sys fuel msgs script,
        ∃ tail, r.payload = sys :: (msgs.map toPayloadEntry ++ tail) := by
  intro fuel
  induction fuel with
  | zero => intro msgs script r hr; simp [turnLoop] at hr
  | succ n ih =>
      intro msgs script r hr
      cases script with
      | nil =>
          simp only [turnLoop, List.mem_singleton] at hr
          subst hr
          exact ⟨[], by simp⟩
      | cons it rest =>
          rw [turnLoop] at hr
          by_cases htc : (runStream level it.frames it.tEnd).toolCalls ≠ []
          · rw [if_pos htc] at hr
            by_cases hok : (runStream level it.frames it.tEnd).toolCalls.all
                (fun c => jsonParseOk c.arguments) = true
            · rw [if_pos hok] at hr
              rcases List.mem_cons.mp hr with hr | hr
              · subst hr
                exact ⟨[], by simp⟩
              · obtain ⟨t', ht'⟩ := ih _ rest r hr
                rw [List.map_append, List.append_assoc] at ht'
                exact ⟨_, ht'⟩
            · rw [if_neg hok] at hr
              simp only [List.mem_singleton] at hr
              subst hr
              exact ⟨[], by simp⟩
          · rw [if_neg htc] at hr
            simp only [List.mem_singleton] at hr
            subst hr
            exact ⟨[], by simp⟩

/-- C4, amended.  The `slice(-10)` truncation happens exactly once, before
the first request of the turn: the first payload is the synthesized system
message followed by the most recent 10 conversational entries, and every
later iteration's payload extends that same window with the tool-call and
tool-result messages accumulated during the turn, without re-truncation. -/
theorem window_truncated_once_then_extended (level : ReasoningLevel)
    (agent : Option Agent) (allMessages : List WorkMsg)
    (script : List IterScript) :
    ((processChatInteraction level agent allMessages script).head?.map
      (fun r => r.payload)) =
      some (⟨"system", combinedSystemPrompt level agent, [], none⟩ ::
        (allMessages.drop (allMessages.length - 10)).map toPayloadEntry) ∧
    ∀ r ∈ processChatInteraction level agent allMessages script,
      ∃ tail, r.payload =
        ⟨"system", combinedSystemPrompt level agent, [], none⟩ ::
          ((allMessages.drop (allMessages.length - 10)).map toPayloadEntry ++ tail) :=
  ⟨turnLoop_head level _ MAX_ITERATIONS _ script (by decide),
   fun r hr => turnLoop_payload_extends level _ MAX_ITERATIONS _ script r hr⟩

set_option maxRecDepth 8192 in
/-- C4, witness: a one-message history and an empty script; the single
request's payload is the system message plus that (sub-10) window. -/
theorem window_truncated_once_then_extended_witness :
    ∃ tail,
      ((processChatInteraction .medium none
          [⟨"user", "hola", "", none, [], none⟩] []).getD 0 default).payload =
        ⟨"system", combinedSystemPrompt .medium none, [], none⟩ ::
          (([⟨"user", "hola", "", none, [], none⟩] : List WorkMsg).drop
            (([⟨"user", "hola", "", none, [], none⟩] : List WorkMsg).length - 10)).map
              toPayloadEntry ++ tail :=
  (window_truncated_once_then_extended .medium none
    [⟨"user", "hola", "", none, [], none⟩] []).2 _ (by decide)

/-!
## Presentation projection (`groupedMessages`, `src/App.tsx` lines 604–629)

A pure fold over the rendered message list: system and tool entries are
skipped, a message continuing an assistant run is merged into the last
group, anything else starts a new group (as a copy of the message, with
`reasoning_parts` initialised from a non-empty `reasoning_content`).
-/

/-- One reasoning segment of a display unit (`reasoning_parts` element). -/
structure RPart where
  content : String
  durationMs : Option Nat
deriving DecidableEq

/-- A rendered message (the `Message` interface): `""` models an absent or
empty — falsy — `reasoning_content`, and `metrics` is the
`metrics?.reasoningDurationMs` reading. -/
structure UIMsg where
  role : String
  content : String
  reasoning_content : String := ""
  reasoning_parts : Option (List RPart) := none
  metrics : Option Nat := none
deriving DecidableEq

/-- `Array.prototype.join` on strings. -/
def joinAll (sep : String) : List String → String
  | [] => ""
  | [x] => x
  | x :: y :: xs => x ++ sep ++ joinAll sep (y :: xs)

/-- `[…].filter(Boolean).join(sep)`: drop empty strings, then join. -/
def joinNE (sep : String) (l : List String) : String :=
  joinAll sep (l.filter (fun s => s != ""))

/-- The `{...msg}` copy pushed as a new group, with `reasoning_parts`
initialised from a non-empty `reasoning_content` when not already set. -/
def freshGroup (m : UIMsg) : UIMsg :=
  if m.reasoning_content ≠ "" ∧ m.reasoning_parts = none then
    { m with reasoning_parts := some [⟨m.reasoning_content, m.metrics⟩] }
  else m

/-- Merging one more consecutive assistant message into the last group. -/
def mergeInto (g : UIMsg) (m : UIMsg) : UIMsg :=
  let parts0 :=
    match g.reasoning_parts with
    | some ps => ps
    | none =>
        if g.reasoning_content ≠ "" then [⟨g.reasoning_content, g.metrics⟩] else []
  let parts1 :=
    if m.reasoning_content ≠ "" then parts0 ++ [⟨m.reasoning_content, m.metrics⟩]
    else parts0
  let totalDur := parts1.foldl (fun acc p => acc + p.durationMs.getD 0) 0
  { role := g.role,
    content := joinNE "\n\n" [g.content, m.content],
    reasoning_content := joinNE "\n\n---\n\n" (parts1.map RPart.content),
    reasoning_parts := some parts1,
    metrics := if 0 < totalDur then some totalDur else none }

/-- The non-skip part of one loop step. -/
def groupAppend (groups : List UIMsg) (m : UIMsg) : List UIMsg :=
  match groups.getLast? with
  | some g =>
      if g.role = "assistant" ∧ m.role = "assistant" then
        groups.dropLast ++ [mergeInto g m]
      else groups ++ [freshGroup m]
  | none => groups ++ [freshGroup m]

/-- One step of the grouping `for` loop. -/
def groupStep (groups : List UIMsg) (m : UIMsg) : List UIMsg :=
  if m.role = "system" ∨ m.role = "tool" then groups
  else groupAppend groups m

/-- `groupedMessages`: the pure projection of the full message list. -/
def groupedMessages (messages : List UIMsg) : List UIMsg :=
  messages.foldl groupStep []

/-- Messages the projection keeps (everything but system and tool). -/
def keepMsg (m : UIMsg) : Bool :=
  !(m.role == "system" || m.role == "tool")

/-- Whether the run being accumulated is an assistant run. -/
def runIsAssistant (cur : List UIMsg) : Bool :=
  match cur.head? with
  | some x => x.role == "assistant"
  | none => false

/-- Chunk a (filtered) message list into maximal runs of consecutive
assistant messages; every other message is a singleton run. -/
def chunkRunsCore : List UIMsg → List UIMsg → List (List UIMsg)
  | cur, [] => [cur]
  | cur, m :: ms =>
      if runIsAssistant cur ∧ m.role = "assistant" then
        chunkRunsCore (cur ++ [m]) ms
      else cur :: chunkRunsCore [m] ms

/-- All runs of a message list. -/
def chunkRuns : List UIMsg → List (List UIMsg)
  | [] => []
  | m :: ms => chunkRunsCore [m] ms

/-- The ordered reasoning segments of a run: the non-empty reasoning texts
with each message's own duration. -/
def runSegments (run : List UIMsg) : List RPart :=
  run.filterMap (fun m =>
    if m.reasoning_content ≠ "" then some ⟨m.reasoning_content, m.metrics⟩
    else none)

/-- Closed form of what the projection makes of one run: a run of length
at least two merges into a single display unit (answer texts joined with a
blank line, reasoning segments collected in order, their durations summed
when positive); a run of length one passes through as the fresh copy. -/
def specMergeRun (run : List UIMsg) : UIMsg :=
  match run with
  | [] => ⟨"", "", "", none, none⟩
  | [m] => freshGroup m
  | m :: ms =>
      let segs := runSegments (m :: ms)
      let total := segs.foldl (fun acc p => acc + p.durationMs.getD 0) 0
      { role := m.role,
        content := joinNE "\n\n" ((m :: ms).map UIMsg.content),
        reasoning_content := joinNE "\n\n---\n\n" (segs.map RPart.content),
        reasoning_parts := some segs,
        metrics := if 0 < total then some total else none }

/-- The projection described as runs-then-merge. -/
def specGrouped (messages : List UIMsg) : List UIMsg :=
  (chunkRuns (messages.filter keepMsg)).map specMergeRun

/-- Modelled from the claim's words: *every* maximal run — a single
assistant entry included — becomes a display unit whose combined metric is
the sum of its reasoning segments' durations (absent when zero). -/
def claimMergeRun (run : List UIMsg) : UIMsg :=
  match run with
  | [] => ⟨"", "", "", none, none⟩
  | m :: ms =>
      let segs := runSegments (m :: ms)
      let total := segs.foldl (fun acc p => acc + p.durationMs.getD 0) 0
      { role := m.role,
        content := joinNE "\n\n" ((m :: ms).map UIMsg.content),
        reasoning_content := joinNE "\n\n---\n\n" (segs.map RPart.content),
        reasoning_parts := some segs,
        metrics := if 0 < total then some total else none }

/-- The claim's description of the whole projection. -/
def claimGrouped (messages : List UIMsg) : List UIMsg :=
  (chunkRuns (messages.filter keepMsg)).map claimMergeRun

/-- Appending to a non-empty string stays non-empty. -/
theorem append_ne_empty_left (x t : String) (h : x ≠ "") : x ++ t ≠ "" := by
  intro hc
  apply h
  have hd : (x ++ t).data = ("" : String).data := by rw [hc]
  rw [String.data_append] at hd
  have hx : x.data = [] := (List.append_eq_nil.mp hd).1
  exact String.ext hx

/-- Joining a non-empty list of non-empty strings is non-empty. -/
theorem joinAll_ne_empty (sep : String) :
    ∀ l : List String, (∀ s ∈ l, s ≠ "") → l ≠ [] → joinAll sep l ≠ "" := by
  intro l
  induction l with
  | nil => intro _ h; exact absurd rfl h
  | cons x xs ih =>
      intro hall _
      cases xs with
      | nil => exact hall x (by simp)
      | cons y ys =>
          rw [joinAll]
          exact append_ne_empty_left _ _
            (append_ne_empty_left _ _ (hall x (by simp)))

/-- If the joined-with-filter string is empty, nothing survived the filter. -/
theorem filter_eq_nil_of_joinNE_eq_empty (sep : String) (l : List String)
    (h : joinNE sep l = "") : l.filter (fun s => s != "") = [] := by
  by_contra hne
  exact joinAll_ne_empty sep _
    (fun s hs => by simpa using (List.mem_filter.mp hs).2) hne h

/-- Pushing a non-empty head through the empties filter. -/
theorem filterNE_cons_pos (a : String) (l : List String) (h : a ≠ "") :
    (a :: l).filter (fun s => s != "") = a :: l.filter (fun s => s != "") := by
  rw [List.filter_cons, if_pos (by simpa using h)]

/-- Dropping an empty head at the empties filter. -/
theorem filterNE_cons_neg (a : String) (l : List String) (h : a = "") :
    (a :: l).filter (fun s => s != "") = l.filter (fun s => s != "") := by
  rw [List.filter_cons, if_neg (by simp [h])]

/-- Joining with one more element appended. -/
theorem joinAll_concat (sep x : String) :
    ∀ l : List String, l ≠ [] →
      joinAll sep (l ++ [x]) = joinAll sep l ++ sep ++ x := by
  intro l
  induction l with
  | nil => intro h; exact absurd rfl h
  | cons a as ih =>
      intro _
      cases as with
      | nil => rfl
      | cons b bs =>
          have hih := ih (by simp)
          simp only [List.cons_append] at hih ⊢
          rw [joinAll, hih, joinAll]
          simp [String.append_assoc]

/-- The iterated binary `filter(Boolean).join` equals the one-shot join:
joining the running join with one more piece appends that piece. -/
theorem joinNE_concat (sep x : String) (l : List String) :
    joinNE sep [joinNE sep l, x] = joinNE sep (l ++ [x]) := by
  by_cases hJ : joinNE sep l = ""
  · have hfl := filter_eq_nil_of_joinNE_eq_empty sep l hJ
    by_cases hx : x = ""
    · rw [joinNE, filterNE_cons_neg _ _ hJ, filterNE_cons_neg _ _ hx,
        joinNE, List.filter_append, hfl, filterNE_cons_neg _ _ hx]
      rfl
    · rw [joinNE, filterNE_cons_neg _ _ hJ, filterNE_cons_pos _ _ hx,
        joinNE, List.filter_append, hfl, filterNE_cons_pos _ _ hx]
      rfl
  · have hfl : l.filter (fun s => s != "") ≠ [] := by
      intro hc
      exact hJ (by rw [joinNE, hc]; rfl)
    by_cases hx : x = ""
    · have hRHS : joinNE sep (l ++ [x]) =
          joinAll sep (l.filter (fun s => s != "")) := by
        rw [joinNE, List.filter_append, filterNE_cons_neg _ _ hx,
          show List.filter (fun s => s != "") ([] : List String) = [] from rfl,
          List.append_nil]
      have hLHS : joinNE sep [joinNE sep l, x] = joinNE sep l := by
        rw [joinNE, filterNE_cons_pos _ _ hJ, filterNE_cons_neg _ _ hx]
        rfl
      rw [hLHS, hRHS, joinNE]
    · have hRHS : joinNE sep (l ++ [x]) =
          joinAll sep (l.filter (fun s => s != "") ++ [x]) := by
        rw [joinNE, List.filter_append, filterNE_cons_pos _ _ hx,
          show List.filter (fun s => s != "") ([] : List String) = [] from rfl]
      have hLHS : joinNE sep [joinNE sep l, x] = joinNE sep l ++ sep ++ x := by
        rw [joinNE, filterNE_cons_pos _ _ hJ, filterNE_cons_pos _ _ hx]
        rfl
      rw [hLHS, hRHS, joinAll_concat sep x _ hfl, joinNE]

/-- Reasoning segments of a run with one more message appended. -/
theorem runSegments_concat (l : List UIMsg) (m : UIMsg) :
    runSegments (l ++ [m]) = runSegments l ++
      (if m.reasoning_content ≠ "" then [⟨m.reasoning_content, m.metrics⟩]
       else []) := by
  by_cases h : m.reasoning_content ≠ "" <;>
    simp [runSegments, List.filterMap_append, h]

/-- A merged run keeps the role of its first message. -/
theorem specMergeRun_role (m0 : UIMsg) (ms : List UIMsg) :
    (specMergeRun (m0 :: ms)).role = m0.role := by
  cases ms with
  | nil =>
      rw [specMergeRun, freshGroup]
      split <;> rfl
  | cons m1 rest => rfl

/-- Merging one more assistant message into the closed form of a run gives
the closed form of the extended run. -/
theorem mergeInto_specMergeRun (cur : List UIMsg) (m : UIMsg)
    (hcur : cur ≠ []) (hparts : ∀ x ∈ cur, x.reasoning_parts = none) :
    mergeInto (specMergeRun cur) m = specMergeRun (cur ++ [m]) := by
  cases cur with
  | nil => exact absurd rfl hcur
  | cons m0 tail =>
      cases tail with
      | nil =>
          have hp0 : m0.reasoning_parts = none := hparts m0 (by simp)
          by_cases h0 : m0.reasoning_content ≠ "" <;>
            by_cases hm : m.reasoning_content ≠ "" <;>
              simp [specMergeRun, freshGroup, mergeInto, runSegments, h0, hm, hp0]
      | cons m1 rest =>
          have h1 := runSegments_concat (m0 :: m1 :: rest) m
          have h2 : joinNE "\n\n" ((m0 :: m1 :: (rest ++ [m])).map UIMsg.content) =
              joinNE "\n\n" [joinNE "\n\n" ((m0 :: m1 :: rest).map UIMsg.content),
                m.content] := by
            rw [show m0 :: m1 :: (rest ++ [m]) = (m0 :: m1 :: rest) ++ [m] from
                by simp, List.map_append]
            exact (joinNE_concat _ _ _).symm
          simp only [List.cons_append] at h1 ⊢
          by_cases hm : m.reasoning_content ≠ ""
          · rw [if_pos hm] at h1
            simp only [specMergeRun, mergeInto, h1, h2]
            rw [if_pos hm]
          · rw [if_neg hm, List.append_nil] at h1
            simp only [specMergeRun, mergeInto, h1, h2]
            rw [if_neg hm]

/-- Skipped entries aside, the grouping fold is the fold over the kept
messages. -/
theorem foldl_groupStep_filter :
    ∀ (l : List UIMsg) (acc : List UIMsg),
      List.foldl groupStep acc l =
        List.foldl groupAppend acc (l.filter keepMsg) := by
  intro l
  induction l with
  | nil => intro acc; rfl
  | cons m ms ih =>
      intro acc
      rw [List.foldl_cons, List.filter_cons]
      by_cases h : m.role = "system" ∨ m.role = "tool"
      · have hk : keepMsg m = false := by
          rcases h with h | h <;> simp [keepMsg, h]
        rw [hk, groupStep, if_pos h]
        simpa using ih acc
      · have hk : keepMsg m = true := by
          rcases not_or.mp h with ⟨h1, h2⟩
          simp [keepMsg, h1, h2]
        rw [hk, groupStep, if_neg h]
        simpa using ih (groupAppend acc m)

/-- Core invariant of the grouping fold: with the groups so far being some
fixed prefix plus the merged current run, folding the remaining kept
messages produces that prefix plus the merged runs. -/
theorem foldl_groupAppend_runs :
    ∀ (rest : List UIMsg) (gs : List UIMsg) (cur : List UIMsg),
      cur ≠ [] → (∀ x ∈ cur, x.reasoning_parts = none) →
      (∀ x ∈ rest, x.reasoning_parts = none) →
      List.foldl groupAppend (gs ++ [specMergeRun cur]) rest =
        gs ++ (chunkRunsCore cur rest).map specMergeRun := by
  intro rest
  induction rest with
  | nil =>
      intro gs cur _ _ _
      rw [List.foldl_nil, chunkRunsCore]
      simp
  | cons m ms ih =>
      intro gs cur hcur hparts hrest
      obtain ⟨m0, tail, rfl⟩ : ∃ m0 tail, cur = m0 :: tail := by
        cases cur with
        | nil => exact absurd rfl hcur
        | cons a b => exact ⟨a, b, rfl⟩
      have hiff : ((specMergeRun (m0 :: tail)).role = "assistant" ∧
          m.role = "assistant") ↔
          ((runIsAssistant (m0 :: tail) = true) ∧ m.role = "assistant") := by
        rw [specMergeRun_role]
        simp [runIsAssistant]
      rw [List.foldl_cons]
      by_cases hcond : (specMergeRun (m0 :: tail)).role = "assistant" ∧
          m.role = "assistant"
      · have hga : groupAppend (gs ++ [specMergeRun (m0 :: tail)]) m =
            gs ++ [specMergeRun ((m0 :: tail) ++ [m])] := by
          rw [groupAppend, List.getLast?_concat]
          simp only
          rw [if_pos hcond, List.dropLast_concat,
            mergeInto_specMergeRun _ _ (by simp) hparts]
        rw [hga, chunkRunsCore, if_pos (hiff.mp hcond)]
        have hparts' : ∀ x ∈ (m0 :: tail) ++ [m], x.reasoning_parts = none := by
          intro x hx
          rcases List.mem_append.mp hx with hx | hx
          · exact hparts x hx
          · rw [List.mem_singleton.mp hx]
            exact hrest m (by simp)
        have hrest' : ∀ x ∈ ms, x.reasoning_parts = none :=
          fun x hx => hrest x (by simp [hx])
        exact ih gs ((m0 :: tail) ++ [m]) (by simp) hparts' hrest'
      · have hga : groupAppend (gs ++ [specMergeRun (m0 :: tail)]) m =
            (gs ++ [specMergeRun (m0 :: tail)]) ++ [specMergeRun [m]] := by
          rw [groupAppend, List.getLast?_concat]
          simp only
          rw [if_neg hcond]
          rfl
        rw [hga, chunkRunsCore, if_neg (fun hc => hcond (hiff.mpr hc))]
        have hm : ([m] : List UIMsg) ≠ [] := by simp
        have hpm : ∀ x ∈ ([m] : List UIMsg), x.reasoning_parts = none := by
          intro x hx
          rw [List.mem_singleton.mp hx]
          exact hrest m (by simp)
        have hrest' : ∀ x ∈ ms, x.reasoning_parts = none :=
          fun x hx => hrest x (by simp [hx])
        rw [ih (gs ++ [specMergeRun (m0 :: tail)]) [m] hm hpm hrest']
        simp

/-- The grouping fold never lets a system- or tool-role entry into the
output. -/
theorem foldl_groupStep_roles :
    ∀ (l : List UIMsg) (acc : List UIMsg),
      (∀ g ∈ acc, g.role ≠ "system" ∧ g.role ≠ "tool") →
      ∀ g ∈ List.foldl groupStep acc l, g.role ≠ "system" ∧ g.role ≠ "tool" := by
  intro l
  induction l with
  | nil => intro acc hacc g hg; exact hacc g hg
  | cons m ms ih =>
      intro acc hacc g hg
      rw [List.foldl_cons] at hg
      refine ih (groupStep acc m) ?_ g hg
      intro x hx
      rw [groupStep] at hx
      by_cases h : m.role = "system" ∨ m.role = "tool"
      · rw [if_pos h] at hx
        exact hacc x hx
      · rw [if_neg h] at hx
        have hroles : m.role ≠ "system" ∧ m.role ≠ "tool" := not_or.mp h
        rw [groupAppend] at hx
        cases hlast : acc.getLast? with
        | none =>
            rw [hlast] at hx
            simp only at hx
            rcases List.mem_append.mp hx with hx | hx
            · exact hacc x hx
            · rw [List.mem_singleton.mp hx, freshGroup]
              split
              · exact hroles
              · exact hroles
        | some g0 =>
            rw [hlast] at hx
            simp only at hx
            by_cases hc : g0.role = "assistant" ∧ m.role = "assistant"
            · rw [if_pos hc] at hx
              rcases List.mem_append.mp hx with hx | hx
              · exact hacc x (List.dropLast_subset _ hx)
              · rw [List.mem_singleton.mp hx]
                have hg0 : g0.role ≠ "system" ∧ g0.role ≠ "tool" :=
                  hacc g0 (List.mem_of_mem_getLast? hlast)
                simpa [mergeInto] using hg0
            · rw [if_neg hc] at hx
              rcases List.mem_append.mp hx with hx | hx
              · exact hacc x hx
              · rw [List.mem_singleton.mp hx, freshGroup]
                split
                · exact hroles
                · exact hroles

/-- C7, amended.  Over messages without precomputed `reasoning_parts` (the
only kind the store and the streaming loop produce), the projection equals
the runs description: system/tool entries are dropped, each maximal run of
consecutive assistant entries of length ≥ 2 merges into one display unit
(non-empty answer texts joined with a blank line, ordered reasoning
segments, segment durations summed into a combined metric when positive),
and a run of length 1 passes through unchanged — keeping its own metric
even when it has no reasoning segments.  Being a pure function of the
list, replaying it yields identical output. -/
theorem groupedMessages_characterization (messages : List UIMsg)
    (h : ∀ m ∈ messages, m.reasoning_parts = none) :
    groupedMessages messages = specGrouped messages ∧
    ∀ g ∈ groupedMessages messages, g.role ≠ "system" ∧ g.role ≠ "tool" := by
  constructor
  · rw [groupedMessages, specGrouped, foldl_groupStep_filter]
    cases hf : messages.filter keepMsg with
    | nil => rfl
    | cons m f' =>
        have hsub : ∀ x ∈ m :: f', x.reasoning_parts = none := by
          intro x hx
          rw [← hf] at hx
          exact h x (List.mem_of_mem_filter hx)
        have hstep : groupAppend [] m = [] ++ [specMergeRun [m]] := by
          rw [groupAppend]
          rfl
        rw [List.foldl_cons, hstep,
          foldl_groupAppend_runs f' [] [m] (by simp)
            (fun x hx => hsub x (by rw [List.mem_singleton.mp hx]; simp))
            (fun x hx => hsub x (by simp [hx])),
          chunkRuns]
        rfl
  · exact foldl_groupStep_roles messages [] (by simp)

/-- C7, counterexample.  A lone assistant message with a duration metric
but no reasoning text: the projection keeps its metric (100), while the
claim's rule — segment durations summed into the combined metric — yields
no metric at all, since the unit has zero reasoning segments. -/
theorem groupedMessages_singleton_metric_counterexample :
    groupedMessages [⟨"assistant", "hola", "", none, some 100⟩] =
      [⟨"assistant", "hola", "", none, some 100⟩] ∧
    claimGrouped [⟨"assistant", "hola", "", none, some 100⟩] =
      [⟨"assistant", "hola", "", some [], none⟩] ∧
    groupedMessages [⟨"assistant", "hola", "", none, some 100⟩] ≠
      claimGrouped [⟨"assistant", "hola", "", none, some 100⟩] := by
  decide

/-- C7, witness: a user message followed by two assistant messages with a
tool message between them; the projection and the runs description agree. -/
theorem groupedMessages_characterization_witness :
    groupedMessages
        [⟨"user", "hola", "", none, none⟩,
         ⟨"assistant", "a1", "r1", none, some 3⟩,
         ⟨"tool", "t", "", none, none⟩,
         ⟨"assistant", "a2", "r2", none, some 4⟩] =
      specGrouped
        [⟨"user", "hola", "", none, none⟩,
         ⟨"assistant", "a1", "r1", none, some 3⟩,
         ⟨"tool", "t", "", none, none⟩,
         ⟨"assistant", "a2", "r2", none, some 4⟩] :=
  (groupedMessages_characterization _ (by decide)).1
